import Mathlib

/-
Verification development for inverse_covariance/statistical_power.py.

The source defines a class StatisticalPower with methods exact_support,
fit and show, plus module helpers _new_graph and _new_sample built on a
module-level RandomState.  We embed it shallowly:

* matrices are total functions `Fin n → Fin n → ℚ` (numpy float entries
  modelled by exact rationals; the only float-specific behaviour that
  matters to the properties below is division by zero, modelled by
  `npDiv` returning `none` for numpy's NaN);
* the external collaborators (make_sparse_spd_matrix-based _new_graph,
  the multivariate-normal _new_sample, and the pluggable estimators)
  are modelled by an `Oracle` of deterministic functions of an explicit
  PRNG token, following the capability contract of the specification:
  cloning an estimator copies its configuration record, fitting a clone
  and reading the selected penalty is `msFit`, fitting a trial-estimator
  clone and reading its `precision_` is `trialFit`;
* the in-place mutation performed by exact_support on its second
  argument, and the set_params mutation of the stored trial estimator,
  are modelled by explicit state passing (the post-state of every
  mutated object is returned);
* `fit` additionally returns the list of `(ratio, n_samples)` pairs for
  every call made to the Sampler, in call order, so that properties of
  the arguments "passed to the Sampler" are stated about an observable.
-/

/- Square rational matrices of a fixed dimension (n_features × n_features). -/
abbrev Mat (n : ℕ) := Fin n → Fin n → ℚ

/-- The fixed comparator threshold `eps = 0.2` of StatisticalPower.exact_support. -/
def eps : ℚ := 1/5

/-- np.abs on a single entry, written so that it evaluates by reduction. -/
def ratAbs (x : ℚ) : ℚ := if x < 0 then -x else x

/-- Entry-wise hard threshold of exact_support: entries with absolute value
at most eps are snapped to zero (the source masks with `np.abs(prec_hat) <= eps`). -/
def threshEntry (x : ℚ) : ℚ := if ratAbs x ≤ eps then 0 else x

/-- The mutation `prec_hat[np.abs(prec_hat) <= eps] = 0.0` applied to a whole matrix. -/
def threshold {n : ℕ} (M : Mat n) : Mat n := fun i j => threshEntry (M i j)

/-- Row-major flat view of a square matrix, `M.flat` in numpy: flat position k
holds the entry at row k / n and column k % n. -/
def flatIdx {n : ℕ} (M : Mat n) (k : Fin (n * n)) : ℚ :=
  M k.divNat k.modNat

/-- Sorted list of flat indices of the non-zero entries, `np.nonzero(M.flat)[0]`. -/
def nonzeroFlat {n : ℕ} (M : Mat n) : List (Fin (n * n)) :=
  (List.finRange (n * n)).filter fun k => decide (flatIdx M k ≠ 0)

/-- Number of non-zero entries, `np.count_nonzero(M.flat)`. -/
def countNonzero {n : ℕ} (M : Mat n) : ℕ := (nonzeroFlat M).length

/-- Return value of StatisticalPower.exact_support: threshold the fitted matrix
in place, then `np.array_equal` of the two sorted non-zero flat index arrays,
the true matrix being compared un-thresholded. -/
def exact_support {n : ℕ} (prec prec_hat : Mat n) : Bool :=
  decide (nonzeroFlat prec = nonzeroFlat (threshold prec_hat))

/-- Full effect of one call to exact_support: the post-state of the first
argument (untouched), the post-state of the second argument (thresholded in
place by the fancy-index assignment), and the returned boolean. -/
def exact_supportS {n : ℕ} (prec prec_hat : Mat n) : Mat n × Mat n × Bool :=
  (prec, threshold prec_hat, exact_support prec prec_hat)

/-- Python `int()` applied to a real value: truncation toward zero. -/
def pyInt (x : ℚ) : ℤ := if 0 ≤ x then ⌊x⌋ else ⌈x⌉

/-- numpy float division as used by `results_[aidx, sidx] /= self.n_trials`:
dividing by zero produces a non-finite value (NaN here, as the numerator is a
sum of zero trials), modelled as `none`. -/
def npDiv (a b : ℚ) : Option ℚ := if b = 0 then none else some (a / b)

/-- np.linspace a b m: m evenly spaced points from a to b inclusive. -/
def linspace (a b : ℚ) (m : ℕ) : List ℚ :=
  if m = 1 then [a]
  else (List.range m).map fun (i : ℕ) => a + (i : ℚ) * (b - a) / ((m : ℚ) - 1)

/-- The hard-coded `n_alpha_grid_points = 5` of StatisticalPower.fit. -/
def numAlphaGridPoints : ℕ := 5

/-- Modelled from the spec: configuration record of the model-selection
estimator (an external collaborator; only its capability contract matters).
Cloning copies this record, so it is the whole observable state. -/
structure MSEst where
  conf : ℕ
deriving DecidableEq

/-- Modelled from the spec: configuration record of a trial estimator.  The
`penalty` field is the settable penalty parameter (`lam`, targeted by
`set_params`); `conf` stands for the rest of its configuration (mode,
initialization method, ...). -/
structure TrialEst where
  penalty : ℚ
  conf : ℕ
deriving DecidableEq

/-- Modelled from the spec: the deterministic external collaborators, as
functions of an explicit PRNG token (ℕ), threading the token exactly where the
source consumes the module-level RandomState.
`newGraph alpha p` is `_new_graph(n_features, alpha)` returning (cov, prec);
`newSample ns cov p` is `_new_sample(ns, n_features, cov)`;
`msFit ms X` is clone → fit X → `getattr(·, penalty_)`;
`trialFit te X` is clone → fit X → `precision_`. -/
structure Oracle (n : ℕ) (S : Type) where
  newGraph : ℚ → ℕ → (Mat n × Mat n) × ℕ
  newSample : ℤ → Mat n → ℕ → S × ℕ
  msFit : MSEst → S → ℚ
  trialFit : TrialEst → S → Mat n

/-- The mutable attributes of a StatisticalPower instance (n_features is the
type-level dimension n of the matrices it manipulates; the penalty attribute
names are resolved into the Oracle's accessors; `None` initial values of the
result attributes are modelled by empty lists). -/
structure Controller where
  model_selection_estimator : MSEst
  trial_estimator : Option TrialEst
  n_trials : ℕ
  n_grid_points : ℕ
  verbose : Bool
  is_fitted : Bool
  results_ : List (List (Option ℚ))
  alphas_ : List ℚ
  ks_ : List ℕ
  grid_ : List ℚ
deriving DecidableEq

/-- StatisticalPower.__init__. -/
def init (ms : MSEst) (te : Option TrialEst) (nt ngp : ℕ) (vb : Bool) : Controller :=
  { model_selection_estimator := ms
    trial_estimator := te
    n_trials := nt
    n_grid_points := ngp
    verbose := vb
    is_fitted := false
    results_ := []
    alphas_ := []
    ks_ := []
    grid_ := [] }

/-- Configuration projection of a stored trial estimator: everything except
the penalty parameter (which `fit` overwrites before every use). -/
def confOf (t : Option TrialEst) : Option ℕ := t.map TrialEst.conf

/-- Trial loop of one cell (`for nn in range(self.n_trials)`): accumulate the
0/1 outcome of exact_support over fresh samples and fresh estimator clones,
logging each Sampler call as (ratio, n_samples). -/
def runTrials {n : ℕ} {S : Type} (o : Oracle n S) (cov prec : Mat n) (te : TrialEst)
    (r : ℚ) (ns : ℤ) : ℕ → ℕ → ℚ × List (ℚ × ℤ) × ℕ
  | 0, p => (0, [], p)
  | k + 1, p =>
      let sample := o.newSample ns cov p
      let prec_hat := o.trialFit te sample.1
      let rest := runTrials o cov prec te r ns k sample.2
      ((if exact_support prec prec_hat then (1 : ℚ) else 0) + rest.1,
       (r, ns) :: rest.2.1,
       rest.2.2)

/-- Outputs of one cell of the sweep. -/
structure CellRes where
  cell : Option ℚ
  te : Option TrialEst
  calls : List (ℚ × ℤ)
  prng : ℕ

/-- One cell of the sweep (one sample-ratio point at a fixed graph):
`n_samples = int(sample_grid * self.n_features)`; one selection draw; fit a
clone of the model-selection estimator and read the selected penalty; take the
stored trial estimator (or construct the default) and patch its penalty via
set_params — mutating the stored instance when one was supplied; then the
trial loop and the division by n_trials. -/
def runCell {n : ℕ} {S : Type} (o : Oracle n S) (ms : MSEst) (teOpt : Option TrialEst)
    (nt : ℕ) (cov prec : Mat n) (r : ℚ) (p : ℕ) : CellRes :=
  let ns : ℤ := pyInt (r * (n : ℚ))
  let sel := o.newSample ns cov p
  let lam := o.msFit ms sel.1
  let te0 : TrialEst :=
    match teOpt with
    | none => { penalty := lam, conf := 0 }
    | some t => t
  let te : TrialEst := { te0 with penalty := lam }
  let tr := runTrials o cov prec te r ns nt sel.2
  { cell := npDiv tr.1 (nt : ℚ)
    te := match teOpt with
          | none => none
          | some _ => some te
    calls := (r, ns) :: tr.2.1
    prng := tr.2.2 }

/-- Outputs of one row of the sweep. -/
structure RowRes where
  cells : List (Option ℚ)
  te : Option TrialEst
  calls : List (ℚ × ℤ)
  prng : ℕ

/-- Inner loop of fit over the sample-ratio grid, at a fixed graph. -/
def runRow {n : ℕ} {S : Type} (o : Oracle n S) (ms : MSEst) (nt : ℕ)
    (cov prec : Mat n) : List ℚ → Option TrialEst → ℕ → RowRes
  | [], teOpt, p => { cells := [], te := teOpt, calls := [], prng := p }
  | r :: rs, teOpt, p =>
      let c := runCell o ms teOpt nt cov prec r p
      let rest := runRow o ms nt cov prec rs c.te c.prng
      { cells := c.cell :: rest.cells
        te := rest.te
        calls := c.calls ++ rest.calls
        prng := rest.prng }

/-- Outputs of the full sweep. -/
structure RowsRes where
  rows : List (List (Option ℚ))
  ks : List ℕ
  te : Option TrialEst
  calls : List (ℚ × ℤ)
  prng : ℕ

/-- Outer loop of fit over the sparsity levels: one fresh graph per alpha, its
non-zero count appended to ks_, then the row sweep. -/
def runRows {n : ℕ} {S : Type} (o : Oracle n S) (ms : MSEst) (nt : ℕ)
    (grid : List ℚ) : List ℚ → Option TrialEst → ℕ → RowsRes
  | [], teOpt, p => { rows := [], ks := [], te := teOpt, calls := [], prng := p }
  | a :: al, teOpt, p =>
      let g := o.newGraph a p
      let row := runRow o ms nt g.1.1 g.1.2 grid teOpt g.2
      let rest := runRows o ms nt grid al row.te row.prng
      { rows := row.cells :: rest.rows
        ks := countNonzero g.1.2 :: rest.ks
        te := rest.te
        calls := row.calls ++ rest.calls
        prng := rest.prng }

/-- StatisticalPower.fit: rebuild the grids and the empty result matrix, run
the sweep, set is_fitted.  Returns the post-state, the log of Sampler calls
(in call order, as (ratio, n_samples) pairs), and the final PRNG token. -/
def fit {n : ℕ} {S : Type} (o : Oracle n S) (s : Controller) (p : ℕ) :
    Controller × List (ℚ × ℤ) × ℕ :=
  let grid := linspace (1/4) 4 s.n_grid_points
  let alphas := (linspace (99/100) (999/1000) numAlphaGridPoints).reverse
  let res := runRows o s.model_selection_estimator s.n_trials grid alphas
    s.trial_estimator p
  ({ s with results_ := res.rows
            grid_ := grid
            alphas_ := alphas
            ks_ := res.ks
            trial_estimator := res.te
            is_fitted := true },
   res.calls, res.prng)

/-- Observable outcome of StatisticalPower.show: either the not-fitted
diagnostic print, or a plot of (results_, grid_, ks_). -/
inductive ShowOut where
  | notFitted : ShowOut
  | plot : List (List (Option ℚ)) → List ℚ → List ℕ → ShowOut
deriving DecidableEq

/-- StatisticalPower.show: guard on is_fitted, no state mutation. -/
def show' (s : Controller) : ShowOut × Controller :=
  if s.is_fitted then (ShowOut.plot s.results_ s.grid_ s.ks_, s)
  else (ShowOut.notFitted, s)

/-- Spec-side strict variant of the entry threshold, following the spec's
words "absolute value below a fixed epsilon is snapped to zero" literally
(strictly below, where the source snaps at-or-below). -/
def threshEntryStrict (x : ℚ) : ℚ := if ratAbs x < eps then 0 else x

/-- Spec-side comparator contract with the strict threshold: supports match
after snapping the fitted entries strictly below eps. -/
def specSupportMatchStrict {n : ℕ} (P Q : Mat n) : Prop :=
  ∀ k : Fin (n * n), flatIdx P k ≠ 0 ↔ threshEntryStrict (flatIdx Q k) ≠ 0

instance {n : ℕ} (P Q : Mat n) : Decidable (specSupportMatchStrict P Q) :=
  inferInstanceAs (Decidable
    (∀ k : Fin (n * n), flatIdx P k ≠ 0 ↔ threshEntryStrict (flatIdx Q k) ≠ 0))

/- Helper lemmas about the comparator. -/

lemma eps_pos : 0 < eps := by norm_num [eps]

lemma ratAbs_eq (x : ℚ) : ratAbs x = |x| := by
  unfold ratAbs
  split
  · next h => exact (abs_of_neg h).symm
  · next h => exact (abs_of_nonneg (not_lt.mp h)).symm

lemma threshEntry_eq_ite (x : ℚ) : threshEntry x = if |x| ≤ eps then 0 else x := by
  unfold threshEntry
  simp only [ratAbs_eq]

lemma threshEntry_of_le {x : ℚ} (h : |x| ≤ eps) : threshEntry x = 0 := by
  rw [threshEntry_eq_ite]
  exact if_pos h

lemma threshEntry_of_gt {x : ℚ} (h : eps < |x|) : threshEntry x = x := by
  rw [threshEntry_eq_ite]
  exact if_neg (not_le.mpr h)

lemma threshEntry_ne_zero {x : ℚ} : threshEntry x ≠ 0 ↔ eps < |x| := by
  rw [threshEntry_eq_ite]
  split
  · next h => simp [not_lt.mpr h]
  · next h =>
      have hx : x ≠ 0 := by
        intro h0
        exact h (by simp [h0, le_of_lt eps_pos])
      simp [hx, not_le.mp h]

lemma threshEntry_idem (x : ℚ) : threshEntry (threshEntry x) = threshEntry x := by
  by_cases h : |x| ≤ eps
  · rw [threshEntry_of_le h, threshEntry_of_le (by simp [le_of_lt eps_pos])]
  · rw [threshEntry_of_gt (not_le.mp h)]
    exact threshEntry_of_gt (not_le.mp h)

lemma threshold_idem {n : ℕ} (Q : Mat n) : threshold (threshold Q) = threshold Q :=
  funext fun i => funext fun j => threshEntry_idem (Q i j)

lemma filter_eq_filter_iff {α : Type _} (l : List α) (p q : α → Bool) :
    l.filter p = l.filter q ↔ ∀ a ∈ l, p a = q a := by
  constructor
  · intro h a ha
    by_contra hne
    cases hp : p a <;> cases hq : q a
    · exact hne (hp.trans hq.symm)
    · have h2 : a ∈ l.filter q := List.mem_filter.mpr ⟨ha, hq⟩
      rw [← h] at h2
      have := (List.mem_filter.mp h2).2
      rw [hp] at this
      exact Bool.false_ne_true this
    · have h1 : a ∈ l.filter p := List.mem_filter.mpr ⟨ha, hp⟩
      rw [h] at h1
      have := (List.mem_filter.mp h1).2
      rw [hq] at this
      exact Bool.false_ne_true this
    · exact hne (hp.trans hq.symm)
  · intro h
    exact List.filter_congr h

lemma flatIdx_threshold {n : ℕ} (Q : Mat n) (k : Fin (n * n)) :
    flatIdx (threshold Q) k = threshEntry (flatIdx Q k) := rfl

lemma support_iff {n : ℕ} (P Q : Mat n) :
    exact_support P Q = true ↔
      ∀ k : Fin (n * n), (flatIdx P k ≠ 0 ↔ flatIdx (threshold Q) k ≠ 0) := by
  unfold exact_support nonzeroFlat
  rw [decide_eq_true_eq, filter_eq_filter_iff]
  constructor
  · intro h k
    have := h k (List.mem_finRange k)
    rwa [decide_eq_decide] at this
  · intro h k _
    rw [decide_eq_decide]
    exact h k

lemma flat_lt {n : ℕ} (i j : Fin n) : i.val * n + j.val < n * n :=
  calc i.val * n + j.val < i.val * n + n := Nat.add_lt_add_left j.isLt _
    _ = (i.val + 1) * n := by ring
    _ ≤ n * n := Nat.mul_le_mul_right n i.isLt

lemma flat_div {n : ℕ} (i j : Fin n) : (i.val * n + j.val) / n = i.val := by
  rw [Nat.add_comm, Nat.add_mul_div_right _ _ i.pos, Nat.div_eq_of_lt j.isLt,
    Nat.zero_add]

lemma flat_mod {n : ℕ} (i j : Fin n) : (i.val * n + j.val) % n = j.val := by
  rw [Nat.add_comm, Nat.add_mul_mod_self_right, Nat.mod_eq_of_lt j.isLt]

lemma flatIdx_mk {n : ℕ} (M : Mat n) (i j : Fin n) :
    flatIdx M ⟨i.val * n + j.val, flat_lt i j⟩ = M i j := by
  unfold flatIdx
  rw [show (Fin.divNat ⟨i.val * n + j.val, flat_lt i j⟩ : Fin n) = i from
        Fin.ext (flat_div i j),
      show (Fin.modNat ⟨i.val * n + j.val, flat_lt i j⟩ : Fin n) = j from
        Fin.ext (flat_mod i j)]

lemma support_iff_entries {n : ℕ} (P Q : Mat n) :
    exact_support P Q = true ↔
      ∀ i j : Fin n, (P i j ≠ 0 ↔ threshEntry (Q i j) ≠ 0) := by
  rw [support_iff]
  constructor
  · intro h i j
    have := h ⟨i.val * n + j.val, flat_lt i j⟩
    rwa [flatIdx_threshold, flatIdx_mk, flatIdx_mk] at this
  · intro h k
    rw [flatIdx_threshold]
    exact h k.divNat k.modNat

/- Concrete matrices used by witnesses and counterexamples. -/

/-- The 1×1 all-ones matrix. -/
def oneMat1 : Mat 1 := fun _ _ => 1

/-- The 1×1 matrix whose entry sits exactly at the threshold eps. -/
def boundaryMat1 : Mat 1 := fun _ _ => 1/5

/-- The 1×1 matrix whose entry is strictly below the threshold. -/
def smallMat1 : Mat 1 := fun _ _ => 1/10

/-- The 2×2 identity pattern (diagonal true precision matrix). -/
def diagMat2 : Mat 2 := fun i j => if i = j then 1 else 0

/-- A 2×2 fitted matrix with unit diagonal and off-diagonal noise below eps. -/
def fitMat2 : Mat 2 := fun i j => if i = j then 1 else 1/10

/-- C2 (counterexample): at a fitted entry whose absolute value equals eps
exactly, the source snaps it to zero (the mask is `<= eps`), while the claim's
strictly-below threshold keeps it, so the claimed equivalence fails: here the
strict-threshold supports match but exact_support returns false. -/
theorem exact_support_strict_spec_fails :
    ¬ (exact_support oneMat1 boundaryMat1 = true ↔
        specSupportMatchStrict oneMat1 boundaryMat1) := by
  with_unfolding_all decide

/-- C2 (amended): exact_support returns true if and only if, after every entry
of the fitted matrix with absolute value at most eps (the source thresholds
at-or-below) is snapped to zero, the set of flat indices of non-zero entries of
the fitted matrix equals the set of non-zero flat indices of the un-thresholded
true matrix. -/
theorem exact_support_iff_support_sets_eq {n : ℕ} (P Q : Mat n) :
    exact_support P Q = true ↔
      {k : Fin (n * n) | flatIdx P k ≠ 0} =
        {k : Fin (n * n) | flatIdx (threshold Q) k ≠ 0} := by
  rw [support_iff, Set.ext_iff]
  simp only [Set.mem_setOf_eq]

/-- C8 (confirmed): the comparator's thresholding is idempotent — running
exact_support on an already-thresholded fitted matrix yields the same boolean
decision as running it on the original fitted matrix. -/
theorem exact_support_threshold_idem {n : ℕ} (P Q : Mat n) :
    exact_support P (threshold Q) = exact_support P Q := by
  unfold exact_support
  rw [threshold_idem]

/-- C7 (counterexample): the claim fails without an assumption on the fitted
matrix's diagonal.  Here every off-diagonal of the fitted 1×1 matrix is
(vacuously) below eps and the true matrix is exactly diagonal with non-zero
diagonal, yet exact_support returns false, because the fitted diagonal entry
1/10 is itself snapped to zero. -/
theorem comparator_boundary_claim_fails :
    (∀ i j : Fin 1, i ≠ j → |smallMat1 i j| < eps) ∧
      (∀ i j : Fin 1, i ≠ j → oneMat1 i j = 0) ∧
      (∀ i : Fin 1, oneMat1 i i ≠ 0) ∧
      exact_support oneMat1 smallMat1 = false := by
  simp only [← ratAbs_eq]
  with_unfolding_all decide

/-- C7 (amended): if every off-diagonal of the fitted matrix is below eps in
magnitude and additionally every diagonal entry of the fitted matrix exceeds
eps in magnitude, the comparator judges it to match any exactly diagonal true
matrix with non-zero diagonal; and (with no diagonal assumption) it judges any
such fitted matrix to mismatch every true matrix having an off-diagonal entry
exceeding eps in magnitude. -/
theorem comparator_boundary_match_mismatch {n : ℕ} (P Q : Mat n)
    (hQoff : ∀ i j : Fin n, i ≠ j → |Q i j| < eps) :
    ((∀ i : Fin n, eps < |Q i i|) → (∀ i j : Fin n, i ≠ j → P i j = 0) →
        (∀ i : Fin n, P i i ≠ 0) → exact_support P Q = true) ∧
      (∀ P₂ : Mat n, (∃ i j : Fin n, i ≠ j ∧ eps < |P₂ i j|) →
        exact_support P₂ Q = false) := by
  constructor
  · intro hQd hPoff hPd
    rw [support_iff_entries]
    intro i j
    by_cases hij : i = j
    · subst hij
      rw [threshEntry_ne_zero]
      exact iff_of_true (hPd i) (hQd i)
    · exact iff_of_false (by simp [hPoff i j hij])
        (by rw [threshEntry_ne_zero]; exact not_lt.mpr (le_of_lt (hQoff i j hij)))
  · intro P₂ hex
    obtain ⟨i, j, hij, hP⟩ := hex
    cases h : exact_support P₂ Q
    · rfl
    · exfalso
      rw [support_iff_entries] at h
      have hP2 : P₂ i j ≠ 0 := by
        intro h0
        rw [h0, abs_zero] at hP
        exact absurd hP (not_lt.mpr (le_of_lt eps_pos))
      have hT := (h i j).mp hP2
      rw [threshEntry_ne_zero] at hT
      exact absurd hT (not_lt.mpr (le_of_lt (hQoff i j hij)))

/-- Witness for the C7 theorem at a concrete 2×2 instance. -/
theorem comparator_boundary_match_mismatch_witness :
    exact_support diagMat2 fitMat2 = true :=
  (comparator_boundary_match_mismatch diagMat2 fitMat2
      (by simp only [← ratAbs_eq]; with_unfolding_all decide)).1
    (by simp only [← ratAbs_eq]; with_unfolding_all decide)
    (by with_unfolding_all decide)
    (by with_unfolding_all decide)

/-- C10 (confirmed): one call to exact_support leaves the first argument
unchanged, snaps every entry of the second argument with absolute value at
most eps (= 0.2) to zero in the caller's matrix, leaves entries above eps
untouched, and returns the support comparison. -/
theorem exact_supportS_frame {n : ℕ} (P Q : Mat n) (i j : Fin n) :
    (exact_supportS P Q).1 = P ∧
      (|Q i j| ≤ eps → (exact_supportS P Q).2.1 i j = 0) ∧
      (eps < |Q i j| → (exact_supportS P Q).2.1 i j = Q i j) ∧
      (exact_supportS P Q).2.2 = exact_support P Q :=
  ⟨rfl, fun h => threshEntry_of_le h, fun h => threshEntry_of_gt h, rfl⟩

/-- Witness for the C10 theorem at a concrete below-threshold entry. -/
theorem exact_supportS_frame_witness :
    |smallMat1 0 0| ≤ eps ∧ (exact_supportS oneMat1 smallMat1).2.1 0 0 = 0 :=
  ⟨by simp only [← ratAbs_eq]; with_unfolding_all decide,
   (exact_supportS_frame oneMat1 smallMat1 0 0).2.1
     (by simp only [← ratAbs_eq]; with_unfolding_all decide)⟩

/- Concrete oracles and controllers used by witnesses and counterexamples. -/

/-- A trivial deterministic oracle over 1×1 matrices: the graph is the all-ones
pair, samples are unit tokens, the selected penalty is always 1/10, and every
trial recovers the all-ones precision matrix. -/
def mat1Oracle : Oracle 1 Unit :=
  { newGraph := fun _ p => ((oneMat1, oneMat1), p)
    newSample := fun _ _ p => ((), p)
    msFit := fun _ _ => 1/10
    trialFit := fun _ _ => oneMat1 }

/-- The 2×2 all-ones matrix. -/
def oneMat2 : Mat 2 := fun _ _ => 1

/-- The trivial oracle over 2×2 matrices. -/
def mat2Oracle : Oracle 2 Unit :=
  { newGraph := fun _ p => ((oneMat2, oneMat2), p)
    newSample := fun _ _ p => ((), p)
    msFit := fun _ _ => 1/10
    trialFit := fun _ _ => oneMat2 }

/-- A controller configured with zero trials and one grid point. -/
def nt0Ctrl : Controller := init ⟨0⟩ none 0 1 false

/-- A controller configured with one trial and one grid point. -/
def nt1Ctrl : Controller := init ⟨0⟩ none 1 1 false

/-- A controller supplied with an explicit trial estimator (penalty 7). -/
def suppliedTECtrl : Controller := init ⟨0⟩ (some ⟨7, 3⟩) 0 1 false

/-- C9 (confirmed): calling show on a controller that is not fitted emits the
not-fitted diagnostic, produces no plot, and leaves the state unchanged. -/
theorem show_not_fitted (s : Controller) (h : s.is_fitted = false) :
    show' s = (ShowOut.notFitted, s) := by
  simp [show', h]

/-- Witness for the C9 theorem on a freshly constructed controller. -/
theorem show_not_fitted_witness :
    show' (init ⟨0⟩ none 100 10 false) = (ShowOut.notFitted, init ⟨0⟩ none 100 10 false) :=
  show_not_fitted (init ⟨0⟩ none 100 10 false) rfl

/-- C4 (confirmed): fit is a deterministic function of the configuration
(estimators, feature count as the matrix dimension, trial count, grid point
count) and the initial PRNG state: two runs from the same seed over identically
configured controllers produce identical result grids, independently of
verbosity or of any prior mutable state. -/
theorem fit_deterministic {n : ℕ} {S : Type} (o : Oracle n S) (s t : Controller) (p : ℕ)
    (h1 : s.model_selection_estimator = t.model_selection_estimator)
    (h2 : s.trial_estimator = t.trial_estimator)
    (h3 : s.n_trials = t.n_trials)
    (h4 : s.n_grid_points = t.n_grid_points) :
    (fit o s p).1.results_ = (fit o t p).1.results_ := by
  unfold fit
  rw [h1, h2, h3, h4]

/-- A controller sharing the configuration of nt1Ctrl but carrying junk
mutable state from an earlier run. -/
def junkStateCtrl : Controller :=
  { nt1Ctrl with is_fitted := true, results_ := [[some 5]], ks_ := [9], grid_ := [3] }

/-- Witness for the C4 theorem at two concretely configured controllers. -/
theorem fit_deterministic_witness :
    (fit mat1Oracle nt1Ctrl 0).1.results_ = (fit mat1Oracle junkStateCtrl 0).1.results_ :=
  fit_deterministic mat1Oracle nt1Ctrl junkStateCtrl 0 rfl rfl rfl rfl

/- Preservation of the non-penalty configuration of the stored trial
estimator across the sweep. -/

lemma runCell_te_conf {n : ℕ} {S : Type} (o : Oracle n S) (ms : MSEst)
    (teOpt : Option TrialEst) (nt : ℕ) (cov prec : Mat n) (r : ℚ) (p : ℕ) :
    confOf (runCell o ms teOpt nt cov prec r p).te = confOf teOpt := by
  cases teOpt <;> simp [runCell, confOf]

lemma runRow_te_conf {n : ℕ} {S : Type} (o : Oracle n S) (ms : MSEst) (nt : ℕ)
    (cov prec : Mat n) : ∀ (rs : List ℚ) (teOpt : Option TrialEst) (p : ℕ),
    confOf (runRow o ms nt cov prec rs teOpt p).te = confOf teOpt := by
  intro rs
  induction rs with
  | nil => intro teOpt p; rfl
  | cons r rs ih =>
      intro teOpt p
      simp only [runRow]
      rw [ih, runCell_te_conf]

lemma runRows_te_conf {n : ℕ} {S : Type} (o : Oracle n S) (ms : MSEst) (nt : ℕ)
    (grid : List ℚ) : ∀ (al : List ℚ) (teOpt : Option TrialEst) (p : ℕ),
    confOf (runRows o ms nt grid al teOpt p).te = confOf teOpt := by
  intro al
  induction al with
  | nil => intro teOpt p; rfl
  | cons x al ih =>
      intro teOpt p
      simp only [runRows]
      rw [ih, runRow_te_conf]

lemma fit_te_conf {n : ℕ} {S : Type} (o : Oracle n S) (s : Controller) (p : ℕ) :
    confOf (fit o s p).1.trial_estimator = confOf s.trial_estimator := by
  simp only [fit]
  exact runRows_te_conf o s.model_selection_estimator s.n_trials
    (linspace (1/4) 4 s.n_grid_points)
    ((linspace (99/100) (999/1000) numAlphaGridPoints).reverse) s.trial_estimator p

/-- C3 (counterexample): the caller-supplied trial estimator is not left with
its configuration unchanged: after fit its penalty parameter has been
overwritten by set_params with the selected lambda (here 1/10 replaces the
supplied 7). -/
theorem fit_mutates_trial_estimator_penalty :
    suppliedTECtrl.trial_estimator = some ⟨7, 3⟩ ∧
      (fit mat1Oracle suppliedTECtrl 0).1.trial_estimator = some ⟨1/10, 3⟩ := by
  constructor
  · rfl
  · with_unfolding_all decide

/-- C3 (amended): per-trial fitting only ever uses fresh clones, the
model-selection estimator prototype is never mutated by fit, and the stored
trial estimator keeps every part of its configuration except its penalty
parameter, which fit overwrites (via set_params) with the selected lambda. -/
theorem fit_estimator_frame {n : ℕ} {S : Type} (o : Oracle n S) (s : Controller) (p : ℕ) :
    (fit o s p).1.model_selection_estimator = s.model_selection_estimator ∧
      confOf (fit o s p).1.trial_estimator = confOf s.trial_estimator :=
  ⟨rfl, fit_te_conf o s p⟩

/- Penalty-independence of the sweep: the stored trial estimator's penalty
field never influences any computed output of fit, because every cell
overwrites it with the freshly selected lambda before use. -/

lemma runCell_equiv {n : ℕ} {S : Type} (o : Oracle n S) (ms : MSEst) (nt : ℕ)
    (cov prec : Mat n) (r : ℚ) (p : ℕ) (a b : Option TrialEst)
    (h : confOf a = confOf b) :
    runCell o ms a nt cov prec r p = runCell o ms b nt cov prec r p := by
  cases a with
  | none =>
      cases b with
      | none => rfl
      | some t => simp [confOf] at h
  | some t =>
      cases b with
      | none => simp [confOf] at h
      | some t2 =>
          obtain ⟨pt, ct⟩ := t
          obtain ⟨pt2, ct2⟩ := t2
          simp only [confOf, Option.map_some', TrialEst.conf, Option.some.injEq] at h
          subst h
          rfl

lemma runRow_equiv {n : ℕ} {S : Type} (o : Oracle n S) (ms : MSEst) (nt : ℕ)
    (cov prec : Mat n) (rs : List ℚ) (a b : Option TrialEst) (p : ℕ)
    (h : confOf a = confOf b) :
    (runRow o ms nt cov prec rs a p).cells = (runRow o ms nt cov prec rs b p).cells ∧
      (runRow o ms nt cov prec rs a p).calls = (runRow o ms nt cov prec rs b p).calls ∧
      (runRow o ms nt cov prec rs a p).prng = (runRow o ms nt cov prec rs b p).prng ∧
      confOf (runRow o ms nt cov prec rs a p).te =
        confOf (runRow o ms nt cov prec rs b p).te := by
  cases rs with
  | nil => exact ⟨rfl, rfl, rfl, h⟩
  | cons r rs =>
      have hc := runCell_equiv o ms nt cov prec r p a b h
      simp only [runRow]
      rw [hc]
      exact ⟨rfl, rfl, rfl, rfl⟩

lemma runRows_equiv {n : ℕ} {S : Type} (o : Oracle n S) (ms : MSEst) (nt : ℕ)
    (grid : List ℚ) : ∀ (al : List ℚ) (a b : Option TrialEst) (p : ℕ),
    confOf a = confOf b →
    (runRows o ms nt grid al a p).rows = (runRows o ms nt grid al b p).rows ∧
      (runRows o ms nt grid al a p).ks = (runRows o ms nt grid al b p).ks ∧
      (runRows o ms nt grid al a p).prng = (runRows o ms nt grid al b p).prng ∧
      confOf (runRows o ms nt grid al a p).te =
        confOf (runRows o ms nt grid al b p).te := by
  intro al
  induction al with
  | nil => intro a b p h; exact ⟨rfl, rfl, rfl, h⟩
  | cons x al ih =>
      intro a b p h
      obtain ⟨hcells, hcalls, hprng, hte⟩ :=
        runRow_equiv o ms nt (o.newGraph x p).1.1 (o.newGraph x p).1.2 grid a b
          (o.newGraph x p).2 h
      have ih2 := ih (runRow o ms nt (o.newGraph x p).1.1 (o.newGraph x p).1.2 grid a
          (o.newGraph x p).2).te
        (runRow o ms nt (o.newGraph x p).1.1 (o.newGraph x p).1.2 grid b
          (o.newGraph x p).2).te
        (runRow o ms nt (o.newGraph x p).1.1 (o.newGraph x p).1.2 grid b
          (o.newGraph x p).2).prng hte
      simp only [runRows]
      refine ⟨?_, ?_, ?_, ?_⟩
      · rw [hcells, hprng, ih2.1]
      · rw [hprng, ih2.2.1]
      · rw [hprng, ih2.2.2.1]
      · rw [hprng]
        exact ih2.2.2.2

lemma runRows_ks_length {n : ℕ} {S : Type} (o : Oracle n S) (ms : MSEst) (nt : ℕ)
    (grid : List ℚ) : ∀ (al : List ℚ) (teOpt : Option TrialEst) (p : ℕ),
    (runRows o ms nt grid al teOpt p).ks.length = al.length := by
  intro al
  induction al with
  | nil => intro teOpt p; rfl
  | cons x al ih =>
      intro teOpt p
      simp only [runRows, List.length_cons]
      rw [ih]

lemma linspace_length (a b : ℚ) (m : ℕ) : (linspace a b m).length = m := by
  unfold linspace
  split
  · next h => simp [h]
  · rw [List.length_map, List.length_range]

lemma fit_config_only {n : ℕ} {S : Type} (o : Oracle n S) (s t : Controller) (q : ℕ)
    (h1 : s.model_selection_estimator = t.model_selection_estimator)
    (h2 : confOf s.trial_estimator = confOf t.trial_estimator)
    (h3 : s.n_trials = t.n_trials)
    (h4 : s.n_grid_points = t.n_grid_points) :
    (fit o s q).1.results_ = (fit o t q).1.results_ ∧
      (fit o s q).1.ks_ = (fit o t q).1.ks_ := by
  simp only [fit]
  rw [h1, h3, h4]
  exact ⟨(runRows_equiv o t.model_selection_estimator t.n_trials
      (linspace (1/4) 4 t.n_grid_points)
      ((linspace (99/100) (999/1000) numAlphaGridPoints).reverse)
      s.trial_estimator t.trial_estimator q h2).1,
    (runRows_equiv o t.model_selection_estimator t.n_trials
      (linspace (1/4) 4 t.n_grid_points)
      ((linspace (99/100) (999/1000) numAlphaGridPoints).reverse)
      s.trial_estimator t.trial_estimator q h2).2.1⟩

/-- C6 (confirmed): a second fit discards all state produced by the first:
its result grid and nonzero-count list are exactly those a single fit with the
same configuration and seed would produce from scratch, and the nonzero-count
list has exactly one entry per sparsity level (the hard-coded five), not
accumulated entries from both runs. -/
theorem fit_not_additive {n : ℕ} {S : Type} (o : Oracle n S) (s : Controller) (p q : ℕ) :
    (fit o (fit o s p).1 q).1.results_ = (fit o s q).1.results_ ∧
      (fit o (fit o s p).1 q).1.ks_ = (fit o s q).1.ks_ ∧
      (fit o (fit o s p).1 q).1.ks_.length = numAlphaGridPoints := by
  have hcfg := fit_config_only o (fit o s p).1 s q rfl (fit_te_conf o s p) rfl rfl
  refine ⟨hcfg.1, hcfg.2, ?_⟩
  simp only [fit]
  rw [runRows_ks_length, List.length_reverse, linspace_length]

/- Bounds on the accumulated trial outcomes. -/

lemma runTrials_acc_bounds {n : ℕ} {S : Type} (o : Oracle n S) (cov prec : Mat n)
    (te : TrialEst) (r : ℚ) (ns : ℤ) : ∀ (k p : ℕ),
    0 ≤ (runTrials o cov prec te r ns k p).1 ∧
      (runTrials o cov prec te r ns k p).1 ≤ (k : ℚ) := by
  intro k
  induction k with
  | zero => intro p; constructor <;> simp [runTrials]
  | succ k ih =>
      intro p
      obtain ⟨h0, h1⟩ := ih (o.newSample ns cov p).2
      simp only [runTrials]
      constructor
      · split <;> linarith
      · push_cast
        split <;> linarith

lemma npDiv_mem_unit {a : ℚ} {nt : ℕ} (h : 1 ≤ nt) (h0 : 0 ≤ a) (h1 : a ≤ (nt : ℚ)) :
    ∃ q : ℚ, npDiv a (nt : ℚ) = some q ∧ 0 ≤ q ∧ q ≤ 1 := by
  have hnt0 : 0 < nt := h
  have hntq : (0 : ℚ) < (nt : ℚ) := by exact_mod_cast hnt0
  refine ⟨a / (nt : ℚ), ?_, ?_, ?_⟩
  · unfold npDiv
    rw [if_neg (ne_of_gt hntq)]
  · exact div_nonneg h0 (le_of_lt hntq)
  · rw [div_le_one hntq]
    exact h1

lemma runCell_cell_unit {n : ℕ} {S : Type} (o : Oracle n S) (ms : MSEst)
    (teOpt : Option TrialEst) (nt : ℕ) (cov prec : Mat n) (r : ℚ) (p : ℕ)
    (h : 1 ≤ nt) :
    ∃ q : ℚ, (runCell o ms teOpt nt cov prec r p).cell = some q ∧ 0 ≤ q ∧ q ≤ 1 := by
  simp only [runCell]
  exact npDiv_mem_unit h
    (runTrials_acc_bounds o cov prec _ r _ nt _).1
    (runTrials_acc_bounds o cov prec _ r _ nt _).2

lemma runRow_cells_unit {n : ℕ} {S : Type} (o : Oracle n S) (ms : MSEst) (nt : ℕ)
    (cov prec : Mat n) (h : 1 ≤ nt) : ∀ (rs : List ℚ) (teOpt : Option TrialEst) (p : ℕ),
    ∀ x ∈ (runRow o ms nt cov prec rs teOpt p).cells,
      ∃ q : ℚ, x = some q ∧ 0 ≤ q ∧ q ≤ 1 := by
  intro rs
  induction rs with
  | nil => intro teOpt p x hx; simp [runRow] at hx
  | cons r rs ih =>
      intro teOpt p x hx
      simp only [runRow] at hx
      rcases List.mem_cons.mp hx with h1 | h2
      · obtain ⟨q, hq, hq0, hq1⟩ := runCell_cell_unit o ms teOpt nt cov prec r p h
        exact ⟨q, h1.trans hq, hq0, hq1⟩
      · exact ih _ _ x h2

lemma runRows_rows_unit {n : ℕ} {S : Type} (o : Oracle n S) (ms : MSEst) (nt : ℕ)
    (grid : List ℚ) (h : 1 ≤ nt) : ∀ (al : List ℚ) (teOpt : Option TrialEst) (p : ℕ),
    ∀ row ∈ (runRows o ms nt grid al teOpt p).rows, ∀ x ∈ row,
      ∃ q : ℚ, x = some q ∧ 0 ≤ q ∧ q ≤ 1 := by
  intro al
  induction al with
  | nil => intro teOpt p row hrow; simp [runRows] at hrow
  | cons y al ih =>
      intro teOpt p row hrow x hx
      simp only [runRows] at hrow
      rcases List.mem_cons.mp hrow with h1 | h2
      · exact runRow_cells_unit o ms nt _ _ h grid teOpt _ x (h1 ▸ hx)
      · exact ih _ _ row h2 x hx

/-- C5 (amended): for every strictly positive trial count, after fit every
entry of the result grid is a defined proportion in the closed interval
[0, 1]. -/
theorem fit_results_in_unit_interval {n : ℕ} {S : Type} (o : Oracle n S)
    (s : Controller) (p : ℕ) (h : 1 ≤ s.n_trials) :
    ∀ row ∈ (fit o s p).1.results_, ∀ x ∈ row,
      ∃ q : ℚ, x = some q ∧ 0 ≤ q ∧ q ≤ 1 := by
  intro row hrow x hx
  have hres : (fit o s p).1.results_ = (runRows o s.model_selection_estimator
      s.n_trials (linspace (1/4) 4 s.n_grid_points)
      ((linspace (99/100) (999/1000) numAlphaGridPoints).reverse)
      s.trial_estimator p).rows := rfl
  rw [hres] at hrow
  exact runRows_rows_unit o s.model_selection_estimator s.n_trials
    (linspace (1/4) 4 s.n_grid_points) h
    ((linspace (99/100) (999/1000) numAlphaGridPoints).reverse)
    s.trial_estimator p row hrow x hx

/-- C5 (counterexample): with a configured trial count of zero, the in-place
division of the accumulated (zero) outcome by n_trials is a numpy 0.0/0,
which produces NaN (modelled as none), so the corresponding result-grid entry
is not a number in [0, 1]. -/
theorem fit_results_nan_at_zero_trials :
    ¬ (∀ row ∈ (fit mat1Oracle nt0Ctrl 0).1.results_, ∀ x ∈ row,
        ∃ q : ℚ, x = some q ∧ 0 ≤ q ∧ q ≤ 1) := by
  intro h
  have hm : [(none : Option ℚ)] ∈ (fit mat1Oracle nt0Ctrl 0).1.results_ := by
    with_unfolding_all decide
  obtain ⟨q, hq, _, _⟩ := h _ hm none (List.mem_singleton.mpr rfl)
  exact Option.noConfusion hq

/-- Witness for the C5 theorem: one trial, one grid point, trivial oracle. -/
theorem fit_results_in_unit_interval_witness :
    ∃ q : ℚ, ((fit mat1Oracle nt1Ctrl 0).1.results_.getD 0 []).getD 0 none = some q ∧
      0 ≤ q ∧ q ≤ 1 :=
  fit_results_in_unit_interval mat1Oracle nt1Ctrl 0 (Nat.le_refl 1)
    ((fit mat1Oracle nt1Ctrl 0).1.results_.getD 0 [])
    (by with_unfolding_all decide)
    (((fit mat1Oracle nt1Ctrl 0).1.results_.getD 0 []).getD 0 none)
    (by with_unfolding_all decide)

/- The arguments passed to the Sampler across the sweep. -/

lemma runTrials_calls {n : ℕ} {S : Type} (o : Oracle n S) (cov prec : Mat n)
    (te : TrialEst) (r : ℚ) (ns : ℤ) : ∀ (k p : ℕ),
    ∀ c ∈ (runTrials o cov prec te r ns k p).2.1, c = (r, ns) := by
  intro k
  induction k with
  | zero => intro p c hc; simp [runTrials] at hc
  | succ k ih =>
      intro p c hc
      simp only [runTrials] at hc
      rcases List.mem_cons.mp hc with h1 | h2
      · exact h1
      · exact ih _ c h2

lemma runCell_calls {n : ℕ} {S : Type} (o : Oracle n S) (ms : MSEst)
    (teOpt : Option TrialEst) (nt : ℕ) (cov prec : Mat n) (r : ℚ) (p : ℕ) :
    ∀ c ∈ (runCell o ms teOpt nt cov prec r p).calls,
      c = (r, pyInt (r * (n : ℚ))) := by
  intro c hc
  simp only [runCell] at hc
  rcases List.mem_cons.mp hc with h1 | h2
  · exact h1
  · exact runTrials_calls o cov prec _ r _ nt _ c h2

lemma runRow_calls {n : ℕ} {S : Type} (o : Oracle n S) (ms : MSEst) (nt : ℕ)
    (cov prec : Mat n) : ∀ (rs : List ℚ) (teOpt : Option TrialEst) (p : ℕ),
    ∀ c ∈ (runRow o ms nt cov prec rs teOpt p).calls,
      ∃ r ∈ rs, c = (r, pyInt (r * (n : ℚ))) := by
  intro rs
  induction rs with
  | nil => intro teOpt p c hc; simp [runRow] at hc
  | cons r rs ih =>
      intro teOpt p c hc
      simp only [runRow] at hc
      rcases List.mem_append.mp hc with h1 | h2
      · exact ⟨r, List.mem_cons_self r rs, runCell_calls o ms teOpt nt cov prec r p c h1⟩
      · obtain ⟨r2, hr2, hc2⟩ := ih _ _ c h2
        exact ⟨r2, List.mem_cons_of_mem r hr2, hc2⟩

lemma runRows_calls {n : ℕ} {S : Type} (o : Oracle n S) (ms : MSEst) (nt : ℕ)
    (grid : List ℚ) : ∀ (al : List ℚ) (teOpt : Option TrialEst) (p : ℕ),
    ∀ c ∈ (runRows o ms nt grid al teOpt p).calls,
      ∃ r ∈ grid, c = (r, pyInt (r * (n : ℚ))) := by
  intro al
  induction al with
  | nil => intro teOpt p c hc; simp [runRows] at hc
  | cons x al ih =>
      intro teOpt p c hc
      simp only [runRows] at hc
      rcases List.mem_append.mp hc with h1 | h2
      · exact runRow_calls o ms nt _ _ grid _ _ c h1
      · exact ih _ _ c h2

lemma linspace_grid_nonneg (m : ℕ) : ∀ x ∈ linspace (1/4) 4 m, 0 ≤ x := by
  intro x hx
  unfold linspace at hx
  split at hx
  · rw [List.mem_singleton] at hx
    subst hx
    norm_num
  · next hm1 =>
      simp only [List.mem_map, List.mem_range] at hx
      obtain ⟨i, hi, rfl⟩ := hx
      rcases Nat.lt_or_ge m 2 with hm | hm
      · have hm0 : m = 0 := by omega
        subst hm0
        exact absurd hi (by simp)
      · have hden : (0 : ℚ) < (m : ℚ) - 1 := by
          have h2 : (2 : ℚ) ≤ (m : ℚ) := by exact_mod_cast hm
          linarith
        have hterm : 0 ≤ (i : ℚ) * ((4 : ℚ) - 1/4) / ((m : ℚ) - 1) := by positivity
        linarith

lemma pyInt_of_nonneg {x : ℚ} (h : 0 ≤ x) : pyInt x = ⌊x⌋ := if_pos h

/-- C1 (counterexample): the source computes
`n_samples = int(sample_grid * self.n_features)`, truncating toward zero,
not rounding.  With two features and a single grid point the first cell has
ratio 1/4, so the count passed to the Sampler is int(0.5) = 0 while
round(0.5) = 1. -/
theorem fit_sampler_count_not_round :
    ((1/4 : ℚ), (0 : ℤ)) ∈ (fit mat2Oracle nt0Ctrl 0).2.1 ∧
      (0 : ℤ) ≠ round ((1/4 : ℚ) * ((2 : ℕ) : ℚ)) := by
  constructor
  · with_unfolding_all decide
  · with_unfolding_all decide

/-- C1 (amended): for every cell of the sweep, the integer sample count passed
to the Sampler equals the truncation toward zero of ratio × feature count —
the floor, since every grid ratio is non-negative — not its rounding. -/
theorem fit_sampler_count_floor {n : ℕ} {S : Type} (o : Oracle n S)
    (s : Controller) (p : ℕ) :
    ∀ c ∈ (fit o s p).2.1, c.2 = ⌊c.1 * (n : ℚ)⌋ := by
  intro c hc
  have hcalls : (fit o s p).2.1 = (runRows o s.model_selection_estimator
      s.n_trials (linspace (1/4) 4 s.n_grid_points)
      ((linspace (99/100) (999/1000) numAlphaGridPoints).reverse)
      s.trial_estimator p).calls := rfl
  rw [hcalls] at hc
  obtain ⟨r, hr, rfl⟩ := runRows_calls o s.model_selection_estimator s.n_trials
    (linspace (1/4) 4 s.n_grid_points)
    ((linspace (99/100) (999/1000) numAlphaGridPoints).reverse)
    s.trial_estimator p c hc
  show pyInt (r * (n : ℚ)) = ⌊r * (n : ℚ)⌋
  exact pyInt_of_nonneg
    (mul_nonneg (linspace_grid_nonneg s.n_grid_points r hr) (by positivity))

/-- Witness for the C1 theorem at the first logged Sampler call of a concrete
sweep with two features. -/
theorem fit_sampler_count_floor_witness :
    ((1/4 : ℚ), (0 : ℤ)) ∈ (fit mat2Oracle nt1Ctrl 0).2.1 ∧
      (0 : ℤ) = ⌊(1/4 : ℚ) * ((2 : ℕ) : ℚ)⌋ :=
  ⟨by with_unfolding_all decide,
   fit_sampler_count_floor mat2Oracle nt1Ctrl 0 ((1/4 : ℚ), (0 : ℤ))
     (by with_unfolding_all decide)⟩
